import Mathlib

/- Verification of the mightrix strided-matrix library.

   Shallow embedding conventions:
   * a Rust buffer (Vec, slice, array) is a `List T`, and a reference into the
     buffer is an offset (`Nat`);
   * a Rust panic, a failed assert, and an out-of-bounds unsafe access are all
     modelled as `none` (`Option` results);
   * const generics (`R`, `C`, `S`) become structure fields;
   * the two layout tags have no runtime content, so the per-layout trait
     implementations are embedded as separate functions with `cp` (column
     first) and `rp` (row first) prefixes. -/

namespace Mightrix

/-- Heap matrix (matrix.rs, struct Matrix): buffer plus runtime dimensions. -/
structure Matrix (T : Type) where
  inner : List T
  rows : Nat
  cols : Nat
deriving DecidableEq

/-- Borrowed-slice matrix (reftrix.rs, struct Reftrix): R rows, C cols. -/
structure Reftrix (T : Type) where
  R : Nat
  C : Nat
  inner : List T
deriving DecidableEq

/-- Fixed-size stack matrix (stacktrix.rs, struct Stacktrix): capacity S, R rows, C cols. -/
structure Stacktrix (T : Type) where
  S : Nat
  R : Nat
  C : Nat
  inner : List T
deriving DecidableEq

/-- matrix.rs, enum MatrixError. -/
inductive MatrixError where
  | DimensionError
deriving DecidableEq

/-- lib.rs, struct IntermittentSlice / IntermittentSliceMut: a strided line view.
    The start reference is modelled as an offset into the matrix buffer; the
    field `slices` is the stride used by the Index impls (`start + index * slices`),
    `len` bounds the index. -/
structure IntermittentSlice where
  start : Nat
  slices : Nat
  len : Nat
deriving DecidableEq

/-- Reading all elements of a strided view: element `i` sits at
    `start + i * stride` (lib.rs, Index for IntermittentSlice and
    IntermittentSliceIntoItterator::next). An unchecked read outside the
    buffer is undefined behaviour, modelled as `none`. -/
def readStrided (buf : List T) : Nat → Nat → Nat → Option (List T)
  | _, _, 0 => some []
  | start, stride, n + 1 =>
    (buf[start]?).bind fun x =>
      (readStrided buf (start + stride) stride n).map (x :: ·)

/-- Consuming iteration of an IntermittentSlice over a given buffer. -/
def IntermittentSlice.readAll (s : IntermittentSlice) (buf : List T) : Option (List T) :=
  readStrided buf s.start s.slices s.len

/-- Writing data through an IntermittentSliceMut zipped with a data slice
    (lib.rs, IntermittentSliceMutIntoItterator::next): data element `i` is
    written at `start + i * stride`; the zip stops at the shorter side, and an
    unchecked write outside the buffer is undefined behaviour (`none`). -/
def writeStrided : List T → Nat → Nat → List T → Option (List T)
  | buf, _, _, [] => some buf
  | buf, start, stride, d :: ds =>
    if start < buf.length then writeStrided (buf.set start d) (start + stride) stride ds
    else none

/-- lib.rs, IterIntermittentSlices::next / IterMutIntermittentSlices::next:
    starting from slice_index `i` with `n` yields remaining, each step demands
    `slice_index < buffer.length` (the `&matrix_buffer[slice_index]` borrow)
    and yields the view `{start := slice_index, slices, len}`. -/
def iterIntermFrom (bufLen slices len : Nat) : Nat → Nat → Option (List IntermittentSlice)
  | _, 0 => some []
  | i, n + 1 =>
    if i < bufLen then
      (iterIntermFrom bufLen slices len (i + 1) n).map (⟨i, slices, len⟩ :: ·)
    else none

/-- The full strided-line iterator: slice_index runs from 0 while it is
    below the `slices` field (lib.rs, IterIntermittentSlices). -/
def iterIntermList (buf : List T) (slices len : Nat) : Option (List IntermittentSlice) :=
  iterIntermFrom buf.length slices len 0 slices

/-- lib.rs, IterSlices::next / IterSlicesMut::next, one split_at(len) step
    per unit of fuel: the loop stops on an empty buffer, `split_at` past the
    end panics (`none`), and `len = 0` on a non-empty buffer never terminates
    (`none`, and also exhausts any fuel). Each productive step removes at
    least one element, so fuel `buf.length` suffices for the whole loop. -/
def iterSlicesGo (len : Nat) : Nat → List T → Option (List (List T))
  | _, [] => some []
  | 0, _ :: _ => none
  | fuel + 1, x :: xs =>
    if len = 0 then none
    else if len ≤ (x :: xs).length then
      (iterSlicesGo len fuel ((x :: xs).drop len)).map ((x :: xs).take len :: ·)
    else none

/-- The full contiguous-chunk iterator (lib.rs, IterSlices): repeatedly
    split_at(len) starting from the whole buffer. -/
def iterSlicesList (len : Nat) (buf : List T) : Option (List (List T)) :=
  iterSlicesGo len buf.length buf

/-- Sequencing a list of fallible element reads, failing on the first `none`. -/
def optSequence : List (Option α) → Option (List α)
  | [] => some []
  | none :: _ => none
  | some x :: rest => (optSequence rest).map (x :: ·)

/-- matrix.rs, Matrix::from_values: rejects data whose length is not rows*cols. -/
def Matrix.from_values (rows cols : Nat) (data : List T) : Except MatrixError (Matrix T) :=
  if rows * cols ≠ data.length then .error .DimensionError
  else .ok ⟨data, rows, cols⟩

/-- matrix.rs, Matrix::new: a uniformly filled rows*cols buffer. -/
def Matrix.new (init : T) (rows cols : Nat) : Matrix T :=
  ⟨List.replicate (rows * cols) init, rows, cols⟩

/-- matrix.rs, Matrix of ColumnPrio, get_column: assert col < cols, then the
    contiguous slice inner[col*rows .. col*rows+rows]. -/
def Matrix.cpGetColumn (m : Matrix T) (col : Nat) : Option (List T) :=
  if col < m.cols then
    let start := col * m.rows
    if start + m.rows ≤ m.inner.length then
      some ((m.inner.drop start).take m.rows)
    else none
  else none

/-- matrix.rs, Matrix of ColumnPrio, get: get_column(col)[row]. -/
def Matrix.cpGet (m : Matrix T) (row col : Nat) : Option T :=
  (m.cpGetColumn col).bind fun v => v[row]?

/-- matrix.rs, Matrix of ColumnPrio, insert: get_mut_column(col)[row] = value. -/
def Matrix.cpInsert (m : Matrix T) (row col : Nat) (v : T) : Option (Matrix T) :=
  if col < m.cols then
    let start := col * m.rows
    if start + m.rows ≤ m.inner.length then
      if row < m.rows then some { m with inner := m.inner.set (start + row) v }
      else none
    else none
  else none

/-- matrix.rs, Matrix of ColumnPrio, fill_col: assert data.len = rows, then
    overwrite the contiguous slice inner[col*rows .. col*rows+rows]
    (no bounds check on col; an out-of-range slice panics). -/
def Matrix.cpFillCol (m : Matrix T) (col : Nat) (data : List T) : Option (Matrix T) :=
  if data.length = m.rows then
    let start := col * m.rows
    if start + m.rows ≤ m.inner.length then
      some { m with inner := m.inner.take start ++ data ++ m.inner.drop (start + m.rows) }
    else none
  else none

/-- matrix.rs, Matrix of ColumnPrio, get_row: assert row < rows, borrow
    &inner[row], view {start := row, slices := rows, len := cols}. -/
def Matrix.cpGetRow (m : Matrix T) (row : Nat) : Option IntermittentSlice :=
  if row < m.rows then
    if row < m.inner.length then some ⟨row, m.rows, m.cols⟩ else none
  else none

/-- matrix.rs, Matrix of ColumnPrio, fill_row: assert data.len = cols, then
    write data through get_mut_row(row) zipped with data. -/
def Matrix.cpFillRow (m : Matrix T) (row : Nat) (data : List T) : Option (Matrix T) :=
  if data.length = m.cols then
    match m.cpGetRow row with
    | none => none
    | some s => (writeStrided m.inner s.start s.slices (data.take s.len)).map
        fun b => { m with inner := b }
  else none

/-- matrix.rs, Matrix of RowPrio, get_row: assert row < rows, then the
    contiguous slice inner[row*cols .. row*cols+cols]. -/
def Matrix.rpGetRow (m : Matrix T) (row : Nat) : Option (List T) :=
  if row < m.rows then
    let start := row * m.cols
    if start + m.cols ≤ m.inner.length then
      some ((m.inner.drop start).take m.cols)
    else none
  else none

/-- matrix.rs, Matrix of RowPrio, get: get_row(row)[col]. -/
def Matrix.rpGet (m : Matrix T) (row col : Nat) : Option T :=
  (m.rpGetRow row).bind fun v => v[col]?

/-- matrix.rs, Matrix of RowPrio, insert: get_mut_row(row)[col] = value. -/
def Matrix.rpInsert (m : Matrix T) (row col : Nat) (v : T) : Option (Matrix T) :=
  if row < m.rows then
    let start := row * m.cols
    if start + m.cols ≤ m.inner.length then
      if col < m.cols then some { m with inner := m.inner.set (start + col) v }
      else none
    else none
  else none

/-- matrix.rs, Matrix of RowPrio, get_column (immutable): assert col < cols,
    borrow &inner[col], view {start := col, slices := self.rows, len := self.cols}
    exactly as written in the source (lines 225-237). -/
def Matrix.rpGetColumn (m : Matrix T) (col : Nat) : Option IntermittentSlice :=
  if col < m.cols then
    if col < m.inner.length then some ⟨col, m.rows, m.cols⟩ else none
  else none

/-- matrix.rs, Matrix of RowPrio, get_mut_column: assert col < cols, borrow
    &mut inner[col], view {start := col, slices := self.cols, len := self.rows}. -/
def Matrix.rpGetMutColumn (m : Matrix T) (col : Nat) : Option IntermittentSlice :=
  if col < m.cols then
    if col < m.inner.length then some ⟨col, m.cols, m.rows⟩ else none
  else none

/-- matrix.rs, Matrix of RowPrio, fill_col: assert data.len = rows, then write
    data through get_mut_column(col) zipped with data. -/
def Matrix.rpFillCol (m : Matrix T) (col : Nat) (data : List T) : Option (Matrix T) :=
  if data.length = m.rows then
    match m.rpGetMutColumn col with
    | none => none
    | some s => (writeStrided m.inner s.start s.slices (data.take s.len)).map
        fun b => { m with inner := b }
  else none

/-- matrix.rs, Matrix of RowPrio, fill_row: assert data.len = cols, then
    overwrite the contiguous slice inner[row*cols .. row*cols+cols]. -/
def Matrix.rpFillRow (m : Matrix T) (row : Nat) (data : List T) : Option (Matrix T) :=
  if data.length = m.cols then
    let start := row * m.cols
    if start + m.cols ≤ m.inner.length then
      some { m with inner := m.inner.take start ++ data ++ m.inner.drop (start + m.cols) }
    else none
  else none

/-- matrix.rs, Matrix of ColumnPrio, rows(): IterIntermittentSlices with
    slices := self.rows, len := self.cols. -/
def Matrix.cpRows (m : Matrix T) : Option (List IntermittentSlice) :=
  iterIntermList m.inner m.rows m.cols

/-- Consuming every view yielded by cpRows over the matrix buffer. -/
def Matrix.cpRowsRead (m : Matrix T) : Option (List (List T)) :=
  m.cpRows.bind fun views => optSequence (views.map fun v => v.readAll m.inner)

/-- matrix.rs, Matrix of ColumnPrio, cols(): IterSlices with len := self.rows. -/
def Matrix.cpCols (m : Matrix T) : Option (List (List T)) :=
  iterSlicesList m.rows m.inner

/-- matrix.rs, Matrix of RowPrio, rows(): IterSlices with len := self.cols. -/
def Matrix.rpRows (m : Matrix T) : Option (List (List T)) :=
  iterSlicesList m.cols m.inner

/-- matrix.rs, Matrix of RowPrio, cols(): IterIntermittentSlices with
    slices := self.cols, len := self.rows. -/
def Matrix.rpCols (m : Matrix T) : Option (List IntermittentSlice) :=
  iterIntermList m.inner m.cols m.rows

/-- Consuming every view yielded by rpCols over the matrix buffer. -/
def Matrix.rpColsRead (m : Matrix T) : Option (List (List T)) :=
  m.rpCols.bind fun views => optSequence (views.map fun v => v.readAll m.inner)

/-- reftrix.rs, Reftrix of CollumPrio, get_collumn: assert col < C, then the
    contiguous slice inner[col*R .. col*R+R]. -/
def Reftrix.cpGetCollumn (m : Reftrix T) (col : Nat) : Option (List T) :=
  if col < m.C then
    let start := col * m.R
    if start + m.R ≤ m.inner.length then
      some ((m.inner.drop start).take m.R)
    else none
  else none

/-- reftrix.rs, Reftrix of CollumPrio, get: get_collumn(col)[row]. -/
def Reftrix.cpGet (m : Reftrix T) (row col : Nat) : Option T :=
  (m.cpGetCollumn col).bind fun v => v[row]?

/-- reftrix.rs, Reftrix of CollumPrio, fill_col (lines 107-111): assert
    data.len = R, then start := col * C and copy_from_slice into
    inner[start .. start+C]; copy_from_slice panics unless the two lengths
    agree, so the final guard demands data.len = C as well. -/
def Reftrix.cpFillCol (m : Reftrix T) (col : Nat) (data : List T) : Option (Reftrix T) :=
  if data.length = m.R then
    let start := col * m.C
    if start + m.C ≤ m.inner.length then
      if data.length = m.C then
        some { m with inner := m.inner.take start ++ data ++ m.inner.drop (start + m.C) }
      else none
    else none
  else none

/-- reftrix.rs, Reftrix of RowPrio, get_row: assert row < R, then the
    contiguous slice inner[row*C .. row*C+C]. -/
def Reftrix.rpGetRow (m : Reftrix T) (row : Nat) : Option (List T) :=
  if row < m.R then
    let start := row * m.C
    if start + m.C ≤ m.inner.length then
      some ((m.inner.drop start).take m.C)
    else none
  else none

/-- reftrix.rs, Reftrix of RowPrio, get: get_row(location.0)[location.1]. -/
def Reftrix.rpGet (m : Reftrix T) (row col : Nat) : Option T :=
  (m.rpGetRow row).bind fun v => v[col]?

/-- stacktrix.rs, Stacktrix of ColumnPrio, get_column (lines 191-200): assert
    col < C, then start := col * C and the slice inner[start .. start+C],
    exactly as written in the source. -/
def Stacktrix.cpGetColumn (m : Stacktrix T) (col : Nat) : Option (List T) :=
  if col < m.C then
    let start := col * m.C
    if start + m.C ≤ m.inner.length then
      some ((m.inner.drop start).take m.C)
    else none
  else none

/-- stacktrix.rs, Stacktrix of ColumnPrio, get: get_column(location.1)[location.0]. -/
def Stacktrix.cpGet (m : Stacktrix T) (row col : Nat) : Option T :=
  (m.cpGetColumn col).bind fun v => v[row]?

/-- stacktrix.rs, Stacktrix of ColumnPrio, insert:
    get_mut_column(location.1)[location.0] = value (the slice produced by
    get_mut_column has length C, so the row index is checked against C). -/
def Stacktrix.cpInsert (m : Stacktrix T) (row col : Nat) (v : T) : Option (Stacktrix T) :=
  if col < m.C then
    let start := col * m.C
    if start + m.C ≤ m.inner.length then
      if row < m.C then some { m with inner := m.inner.set (start + row) v }
      else none
    else none
  else none

/-- stacktrix.rs, Stacktrix of RowPrio, get_row: assert row < R, then the
    contiguous slice inner[row*C .. row*C+C]. -/
def Stacktrix.rpGetRow (m : Stacktrix T) (row : Nat) : Option (List T) :=
  if row < m.R then
    let start := row * m.C
    if start + m.C ≤ m.inner.length then
      some ((m.inner.drop start).take m.C)
    else none
  else none

/-- stacktrix.rs, Stacktrix of RowPrio, get: get_row(location.0)[location.1]. -/
def Stacktrix.rpGet (m : Stacktrix T) (row col : Nat) : Option T :=
  (m.rpGetRow row).bind fun v => v[col]?

/-- matrix.rs, impl Display for MatrixError (lines 28-32): fmt writes
    format_args with the Display placeholder applied to self, which invokes the
    same fmt again; the body performs no other output. Each unit of fuel allows
    one unfolding; the function can never return a rendered string. -/
def MatrixError.displayFmt : Nat → MatrixError → Option String
  | 0, _ => none
  | fuel + 1, e => MatrixError.displayFmt fuel e

/-- One pass of the add-the-element-index mutation over a single strided line:
    element i (at start + i*stride) gets i added, for i below the given count;
    an unchecked write outside the buffer is undefined behaviour (`none`). -/
def addIdxFrom (start stride : Nat) : Nat → Nat → List Nat → Option (List Nat)
  | _, 0, buf => some buf
  | i, n + 1, buf =>
    let idx := start + i * stride
    if idx < buf.length then
      addIdxFrom start stride (i + 1) n (buf.set idx (buf.getD idx 0 + i))
    else none

/-- Driving Matrix of ColumnPrio rows_mut() and, per yielded line, adding the
    element index to each element (tests/col_first_matrix.rs, iter_rows_ref):
    slice_index k runs from 0 below rows, each step borrowing &mut buffer[k]. -/
def cpRowsMutAddIdxGo (rows cols : Nat) : Nat → Nat → List Nat → Option (List Nat)
  | _, 0, buf => some buf
  | k, n + 1, buf =>
    if k < buf.length then
      match addIdxFrom k rows 0 cols buf with
      | none => none
      | some b => cpRowsMutAddIdxGo rows cols (k + 1) n b
    else none

/-- The rows_mut add-index scenario on a ColumnPrio heap matrix. -/
def Matrix.cpRowsMutAddIdx (m : Matrix Nat) : Option (List Nat) :=
  cpRowsMutAddIdxGo m.rows m.cols 0 m.rows m.inner

/-- Adding the running element index to each element of a contiguous line. -/
def addIdxList : Nat → List Nat → List Nat
  | _, [] => []
  | i, x :: xs => (x + i) :: addIdxList (i + 1) xs

/-- Driving Matrix of ColumnPrio cols_mut() (IterSlicesMut chunks of length
    rows) and, per yielded column, adding the element index to each element
    (tests/col_first_matrix.rs, iter_cols_ref). -/
def Matrix.cpColsMutAddIdx (m : Matrix Nat) : Option (List Nat) :=
  (iterSlicesList m.rows m.inner).map fun chunks => (chunks.map (addIdxList 0)).flatten

/-- The set of buffer offsets a strided view of given start, stride and length
    touches. -/
def stridedFootprint (start stride len : Nat) : List Nat :=
  (List.range len).map fun i => start + i * stride

/-- Buffer footprints of the views yielded by Matrix of ColumnPrio rows_mut(). -/
def Matrix.cpRowFootprints (m : Matrix T) : List (List Nat) :=
  (List.range m.rows).map fun k => stridedFootprint k m.rows m.cols

/-- Buffer footprints of the chunks yielded by Matrix of ColumnPrio cols_mut(). -/
def Matrix.cpColFootprints (m : Matrix T) : List (List Nat) :=
  (List.range m.cols).map fun j => stridedFootprint (j * m.rows) 1 m.rows

/-- The shared 16-element fixture from the spec and the repository tests. -/
def fx16 : List Nat := [1, 1, 1, 1, 2, 2, 2, 2, 3, 3, 3, 3, 4, 4, 4, 4]

/-- The 4x4 heap matrix over the fixture. -/
def mFx : Matrix Nat := ⟨fx16, 4, 4⟩

/-- The 4x4 borrowed-slice matrix over the fixture. -/
def rFx : Reftrix Nat := ⟨4, 4, fx16⟩

/-- The 4x4 stack matrix over the fixture. -/
def sFx : Stacktrix Nat := ⟨16, 4, 4, fx16⟩

/-- The full 4x4 table of get results for one accessor. -/
def getTable (g : Nat → Nat → Option Nat) : List (List (Option Nat)) :=
  (List.range 4).map fun r => (List.range 4).map fun c => g r c

/-- The 4x3 column-first stack matrix from the repository test col_first_uneven. -/
def st43 : Stacktrix Nat := ⟨12, 4, 3, [1, 1, 1, 1, 2, 2, 2, 2, 3, 3, 3, 3]⟩

/-- A 2x3 heap matrix whose buffer enumerates its own offsets. -/
def m23 : Matrix Nat := ⟨[0, 1, 2, 3, 4, 5], 2, 3⟩

/-- A 2x3 borrowed-slice matrix. -/
def rf23 : Reftrix Nat := ⟨2, 3, [1, 2, 3, 4, 5, 6]⟩

/-- A 3x2 stack matrix. -/
def st32 : Stacktrix Nat := ⟨6, 3, 2, [1, 2, 3, 4, 5, 6]⟩

/-- A 2x3 stack matrix. -/
def st23 : Stacktrix Nat := ⟨6, 2, 3, [1, 2, 3, 4, 5, 6]⟩

/-- A valid heap matrix with one row and zero columns (empty buffer). -/
def mEmptyAxis : Matrix Nat := ⟨[], 1, 0⟩

/-- Properties of one direction of line iteration: the right number of lines,
    each of the right length, and the concatenation a permutation of the
    buffer (every element exactly once). -/
def coverageSpec (views : List (List T)) (count axisLen : Nat) (buf : List T) : Prop :=
  views.length = count ∧ (∀ v ∈ views, v.length = axisLen) ∧ views.flatten.Perm buf

/-- The C8 property for a ColumnPrio heap matrix: rows() yields views with
    start offsets 0, 1, ... rows-1 in order (stride rows, length cols), their
    reads cover the buffer exactly once, and cols() yields the cols contiguous
    chunks in ascending order, likewise covering the buffer. -/
def Matrix.rowsColsCoverCp (m : Matrix T) : Prop :=
  (m.cpRows = some ((List.range m.rows).map fun k => ⟨k, m.rows, m.cols⟩)) ∧
  (∃ rs, m.cpRowsRead = some rs ∧ coverageSpec rs m.rows m.cols m.inner) ∧
  (m.cpCols = some ((List.range m.cols).map fun j => (m.inner.drop (j * m.rows)).take m.rows)) ∧
  (∃ cs, m.cpCols = some cs ∧ coverageSpec cs m.cols m.rows m.inner)

/-- The C8 property for a RowPrio heap matrix: rows() yields the rows
    contiguous chunks in ascending order, cols() yields views with start
    offsets 0, 1, ..., cols-1 in order (stride cols, length rows), and both
    directions cover the buffer exactly once. -/
def Matrix.rowsColsCoverRp (m : Matrix T) : Prop :=
  (m.rpRows = some ((List.range m.rows).map fun j => (m.inner.drop (j * m.cols)).take m.cols)) ∧
  (∃ rs, m.rpRows = some rs ∧ coverageSpec rs m.rows m.cols m.inner) ∧
  (m.rpCols = some ((List.range m.cols).map fun k => ⟨k, m.cols, m.rows⟩)) ∧
  (∃ cs, m.rpColsRead = some cs ∧ coverageSpec cs m.cols m.rows m.inner)

/-- The buffer offsets visited by reading each strided line of stride S and
    length L for start offsets 0 .. S-1, concatenated in order. -/
def gridIdx (S L : Nat) : List Nat :=
  ((List.range S).map fun k => (List.range L).map fun i => k + i * S).flatten

/-- Splitting a map over an extended range into its first element and the
    shifted remainder. -/
theorem map_range_succ_shift (f : Nat → α) (n : Nat) :
    (List.range (n + 1)).map f = f 0 :: (List.range n).map fun i => f (i + 1) := by
  rw [List.range_succ_eq_map, List.map_cons, List.map_map]
  rfl

/-- Reading a whole buffer back by its offsets reproduces the buffer. -/
theorem map_getD_range (l : List T) (d : T) :
    (List.range l.length).map (fun i => l.getD i d) = l := by
  induction l with
  | nil => rfl
  | cons x xs ih =>
    have hshift : (List.range (xs.length + 1)).map (fun i => (x :: xs).getD i d)
        = (x :: xs).getD 0 d ::
          (List.range xs.length).map fun i => (x :: xs).getD (i + 1) d :=
      map_range_succ_shift _ _
    rw [List.length_cons, hshift, List.getD_cons_zero]
    have hfun : ((List.range xs.length).map fun i => (x :: xs).getD (i + 1) d)
        = (List.range xs.length).map fun i => xs.getD i d := by
      apply List.map_congr_left
      intro i _
      rw [List.getD_cons_succ]
    rw [hfun, ih]

/-- A strided read whose every offset is in bounds succeeds and returns the
    buffer elements at start, start+stride, and so on. -/
theorem readStrided_eq (buf : List T) (d : T) :
    ∀ (len start stride : Nat), (∀ i, i < len → start + i * stride < buf.length) →
      readStrided buf start stride len
        = some ((List.range len).map fun i => buf.getD (start + i * stride) d) := by
  intro len
  induction len with
  | zero => intro start stride _; simp [readStrided]
  | succ n ih =>
    intro start stride h
    have h0 : start < buf.length := by
      have := h 0 (Nat.succ_pos n)
      simpa using this
    have hget : buf[start]? = some (buf.getD start d) := by
      rw [List.getElem?_eq_getElem h0, List.getD_eq_getElem buf d h0]
    have ih2 : readStrided buf (start + stride) stride n
        = some ((List.range n).map fun i => buf.getD (start + stride + i * stride) d) := by
      apply ih
      intro i hi
      have := h (i + 1) (Nat.succ_lt_succ hi)
      have heq : start + (i + 1) * stride = start + stride + i * stride := by ring
      omega
    simp only [readStrided, hget, ih2, Option.bind_some, Option.map_some]
    have hshift : (List.range (n + 1)).map (fun i => buf.getD (start + i * stride) d)
        = buf.getD (start + 0 * stride) d ::
          (List.range n).map fun i => buf.getD (start + (i + 1) * stride) d :=
      map_range_succ_shift _ n
    rw [hshift]
    have h0s : start + 0 * stride = start := by ring
    have hfun : ((List.range n).map fun i => buf.getD (start + (i + 1) * stride) d)
        = (List.range n).map fun i => buf.getD (start + stride + i * stride) d := by
      apply List.map_congr_left
      intro i _
      have heq : start + (i + 1) * stride = start + stride + i * stride := by ring
      rw [heq]
    rw [h0s, hfun]
    rfl

/-- The strided-line iterator, at slice_index i with n yields remaining,
    produces the n views with start offsets i, i+1, ... when they all fit in
    the buffer. -/
theorem iterIntermFrom_eq (bufLen slices len : Nat) :
    ∀ (n i : Nat), i + n ≤ bufLen →
      iterIntermFrom bufLen slices len i n
        = some ((List.range n).map fun j => ⟨i + j, slices, len⟩) := by
  intro n
  induction n with
  | zero => intro i _; simp [iterIntermFrom]
  | succ k ih =>
    intro i h
    have hi : i < bufLen := by omega
    simp only [iterIntermFrom, if_pos hi, ih (i + 1) (by omega), Option.map_some]
    have hshift : (List.range (k + 1)).map
          (fun j => (⟨i + j, slices, len⟩ : IntermittentSlice))
        = (⟨i + 0, slices, len⟩ : IntermittentSlice) ::
          (List.range k).map fun j => (⟨i + (j + 1), slices, len⟩ : IntermittentSlice) :=
      map_range_succ_shift _ k
    rw [hshift]
    have h0 : i + 0 = i := by omega
    have hfun : ((List.range k).map fun j => (⟨i + (j + 1), slices, len⟩ : IntermittentSlice))
        = (List.range k).map fun j => (⟨i + 1 + j, slices, len⟩ : IntermittentSlice) := by
      apply List.map_congr_left
      intro j _
      have heq : i + (j + 1) = i + 1 + j := by omega
      rw [heq]
    rw [h0, hfun]
    rfl

/-- The chunk iterator on a buffer of length len*count, given at least that
    much fuel, yields exactly the count consecutive chunks in order. -/
theorem iterSlicesGo_eq (len : Nat) (hl : 0 < len) :
    ∀ (count fuel : Nat) (buf : List T), buf.length ≤ fuel → buf.length = len * count →
      iterSlicesGo len fuel buf
        = some ((List.range count).map fun k => (buf.drop (k * len)).take len) := by
  intro count
  induction count with
  | zero =>
    intro fuel buf _ hb
    have hnil : buf = [] := List.eq_nil_of_length_eq_zero (by omega)
    subst hnil
    cases fuel <;> simp [iterSlicesGo]
  | succ c ih =>
    intro fuel buf hf hb
    have hmul : buf.length = len * c + len := by rw [hb, Nat.mul_succ]
    have hlen1 : 0 < buf.length := by omega
    obtain ⟨x, xs, rfl⟩ : ∃ y ys, buf = y :: ys := by
      cases buf with
      | nil => simp at hlen1
      | cons y ys => exact ⟨y, ys, rfl⟩
    obtain ⟨f, rfl⟩ : ∃ f, fuel = f + 1 := by
      cases fuel with
      | zero => omega
      | succ f => exact ⟨f, rfl⟩
    have hle : len ≤ (x :: xs).length := by omega
    have hdl : ((x :: xs).drop len).length = len * c := by
      rw [List.length_drop]
      omega
    have hdf : ((x :: xs).drop len).length ≤ f := by
      rw [List.length_drop]
      simp only [List.length_cons] at hf ⊢
      omega
    simp only [iterSlicesGo, if_neg (by omega : ¬ len = 0), if_pos hle,
      ih f ((x :: xs).drop len) hdf hdl, Option.map_some]
    have hshift : (List.range (c + 1)).map (fun k => ((x :: xs).drop (k * len)).take len)
        = ((x :: xs).drop (0 * len)).take len ::
          (List.range c).map fun k => ((x :: xs).drop ((k + 1) * len)).take len :=
      map_range_succ_shift _ c
    rw [hshift]
    have h00 : (0 : Nat) * len = 0 := by ring
    have hfun : ((List.range c).map fun k => ((x :: xs).drop ((k + 1) * len)).take len)
        = (List.range c).map fun k => (((x :: xs).drop len).drop (k * len)).take len := by
      apply List.map_congr_left
      intro k _
      rw [List.drop_drop]
      have heq : len + k * len = (k + 1) * len := by ring
      rw [heq]
    rw [h00, hfun, List.drop_zero]
    rfl

/-- Concatenating the count consecutive length-len chunks of a buffer of
    length len*count gives back the buffer. -/
theorem chunksFlatten (len : Nat) :
    ∀ (count : Nat) (buf : List T), buf.length = len * count →
      ((List.range count).map fun k => (buf.drop (k * len)).take len).flatten = buf := by
  intro count
  induction count with
  | zero =>
    intro buf hb
    have hnil : buf = [] := List.eq_nil_of_length_eq_zero (by omega)
    subst hnil
    rfl
  | succ c ih =>
    intro buf hb
    have hdl : (buf.drop len).length = len * c := by
      rw [List.length_drop, hb, Nat.mul_succ]
      omega
    have hshift : (List.range (c + 1)).map (fun k => (buf.drop (k * len)).take len)
        = (buf.drop (0 * len)).take len ::
          (List.range c).map fun k => (buf.drop ((k + 1) * len)).take len :=
      map_range_succ_shift _ c
    rw [hshift, List.flatten_cons]
    have hfun : ((List.range c).map fun k => (buf.drop ((k + 1) * len)).take len)
        = (List.range c).map fun k => ((buf.drop len).drop (k * len)).take len := by
      apply List.map_congr_left
      intro k _
      rw [List.drop_drop]
      have heq : len + k * len = (k + 1) * len := by ring
      rw [heq]
    rw [hfun, ih (buf.drop len) hdl]
    have h00 : (0 : Nat) * len = 0 := by ring
    rw [h00, List.drop_zero, List.take_append_drop]

/-- Every chunk of the chunk decomposition has length len. -/
theorem chunkLen (len count : Nat) (buf : List T) (hb : buf.length = len * count) :
    ∀ v ∈ (List.range count).map fun k => (buf.drop (k * len)).take len, v.length = len := by
  intro v hv
  simp only [List.mem_map, List.mem_range] at hv
  obtain ⟨k, hk, rfl⟩ := hv
  rw [List.length_take, List.length_drop, hb]
  have h1 : (k + 1) * len ≤ count * len := Nat.mul_le_mul (by omega) (le_refl len)
  have h2 : (k + 1) * len = k * len + len := by rw [Nat.succ_mul]
  have h3 : count * len = len * count := Nat.mul_comm count len
  omega

/-- Flattening a map to empty lists gives the empty list. -/
theorem flattenMapNil (l : List α) : (l.map fun _ => ([] : List β)).flatten = [] := by
  induction l with
  | nil => rfl
  | cons x xs ih => simp [ih]

/-- Flattening a map to singletons is a map. -/
theorem flattenMapSingleton (l : List α) (f : α → β) :
    (l.map fun a => [f a]).flatten = l.map f := by
  induction l with
  | nil => rfl
  | cons x xs ih => simp [ih]

/-- Flattening pointwise-appended lists is a permutation of the two flattened
    halves appended. -/
theorem flattenMapAppendPerm (l : List α) (f g : α → List β) :
    ((l.map fun a => f a ++ g a).flatten).Perm ((l.map f).flatten ++ (l.map g).flatten) := by
  induction l with
  | nil => simp
  | cons x xs ih =>
    simp only [List.map_cons, List.flatten_cons]
    have step1 : ((f x ++ g x) ++ (xs.map fun a => f a ++ g a).flatten).Perm
        ((f x ++ g x) ++ ((xs.map f).flatten ++ (xs.map g).flatten)) :=
      List.Perm.append_left _ ih
    have step2 : (g x ++ ((xs.map f).flatten ++ (xs.map g).flatten)).Perm
        ((xs.map f).flatten ++ (g x ++ (xs.map g).flatten)) := by
      rw [← List.append_assoc, ← List.append_assoc]
      exact List.Perm.append_right _ List.perm_append_comm
    have step3 : ((f x ++ g x) ++ ((xs.map f).flatten ++ (xs.map g).flatten)).Perm
        ((f x ++ (xs.map f).flatten) ++ (g x ++ (xs.map g).flatten)) := by
      rw [List.append_assoc, List.append_assoc]
      exact List.Perm.append_left _ step2
    exact step1.trans step3

/-- The strided grid of offsets k + i*S for k below S and i below L is a
    permutation of all offsets below S*L. -/
theorem gridIdx_perm (S L : Nat) : (gridIdx S L).Perm (List.range (S * L)) := by
  induction L with
  | zero => simp [gridIdx, flattenMapNil]
  | succ L ih =>
    have hsplit : ((List.range S).map fun k => (List.range (L + 1)).map fun i => k + i * S)
        = (List.range S).map fun k =>
            ((List.range L).map fun i => k + i * S) ++ [k + L * S] := by
      apply List.map_congr_left
      intro k _
      rw [List.range_succ, List.map_append]
      rfl
    have h1 : (gridIdx S (L + 1)).Perm
        (gridIdx S L ++ (List.range S).map fun k => k + L * S) := by
      rw [gridIdx, hsplit]
      have := flattenMapAppendPerm (List.range S)
        (fun k => (List.range L).map fun i => k + i * S) (fun k => [k + L * S])
      rw [flattenMapSingleton] at this
      exact this
    have h2 : (gridIdx S L ++ (List.range S).map fun k => k + L * S).Perm
        (List.range (S * L) ++ (List.range S).map fun k => k + L * S) :=
      List.Perm.append_right _ ih
    have h3 : List.range (S * L) ++ ((List.range S).map fun k => k + L * S)
        = List.range (S * (L + 1)) := by
      rw [Nat.mul_succ, List.range_add]
      congr 1
      apply List.map_congr_left
      intro k _
      ring
    rw [← h3]
    exact h1.trans h2

/-- Concatenating the strided reads of all lines is the image of the offset
    grid under the buffer lookup. -/
theorem grid_read_flatten (buf : List T) (d : T) (S L : Nat) :
    (((List.range S).map fun k => (List.range L).map fun i => buf.getD (k + i * S) d).flatten)
      = (gridIdx S L).map fun n => buf.getD n d := by
  rw [gridIdx, List.map_flatten, List.map_map]
  congr 1
  apply List.map_congr_left
  intro k _
  simp only [Function.comp_apply]
  rw [List.map_map]
  rfl

/-- Sequencing a map of plain results succeeds with the mapped list. -/
theorem optSequence_map_some (l : List α) (g : α → β) :
    optSequence (l.map fun a => some (g a)) = some (l.map g) := by
  induction l with
  | nil => rfl
  | cons x xs ih => simp [optSequence, ih]

/-- The strided-line direction of iteration on a buffer of length S*L:
    the iterator yields the S views with start offsets 0 .. S-1 (stride S,
    length L), reading them all succeeds, and the reads cover the buffer
    exactly once. -/
theorem intermCover (buf : List T) (d : T) (S L : Nat)
    (hlen : buf.length = S * L) (hL : 0 < L) :
    iterIntermList buf S L = some ((List.range S).map fun k => ⟨k, S, L⟩) ∧
    optSequence (((List.range S).map fun k => (⟨k, S, L⟩ : IntermittentSlice)).map
        fun v => v.readAll buf)
      = some ((List.range S).map fun k =>
          (List.range L).map fun i => buf.getD (k + i * S) d) ∧
    coverageSpec ((List.range S).map fun k =>
        (List.range L).map fun i => buf.getD (k + i * S) d) S L buf := by
  have hSle : S ≤ buf.length := by
    rw [hlen]
    exact Nat.le_mul_of_pos_right S hL
  have hbound : ∀ k, k < S → ∀ i, i < L → k + i * S < buf.length := by
    intro k hk i hi
    rw [hlen]
    have h1 : (i + 1) * S ≤ L * S := Nat.mul_le_mul (by omega) (le_refl S)
    have h2 : (i + 1) * S = i * S + S := by rw [Nat.succ_mul]
    have h3 : L * S = S * L := Nat.mul_comm L S
    omega
  have hviews : iterIntermList buf S L = some ((List.range S).map fun k => ⟨k, S, L⟩) := by
    rw [iterIntermList, iterIntermFrom_eq buf.length S L S 0 (by omega)]
    congr 1
    apply List.map_congr_left
    intro j _
    simp
  have hreads : (((List.range S).map fun k => (⟨k, S, L⟩ : IntermittentSlice)).map
        fun v => v.readAll buf)
      = (List.range S).map fun k =>
          some ((List.range L).map fun i => buf.getD (k + i * S) d) := by
    rw [List.map_map]
    apply List.map_congr_left
    intro k hk
    simp only [Function.comp_apply, IntermittentSlice.readAll]
    exact readStrided_eq buf d L k S (hbound k (List.mem_range.mp hk))
  refine ⟨hviews, ?_, ?_, ?_, ?_⟩
  · rw [hreads, optSequence_map_some]
  · simp
  · intro v hv
    simp only [List.mem_map, List.mem_range] at hv
    obtain ⟨k, _, rfl⟩ := hv
    simp
  · rw [grid_read_flatten buf d S L]
    have hperm := (gridIdx_perm S L).map fun n => buf.getD n d
    have hbuf : (List.range (S * L)).map (fun n => buf.getD n d) = buf := by
      rw [← hlen]
      exact map_getD_range buf d
    rw [hbuf] at hperm
    exact hperm

/-- The contiguous-chunk direction of iteration on a buffer of length
    len*count: the iterator yields the count consecutive chunks in order,
    each of length len, covering the buffer exactly once. -/
theorem chunksCover (buf : List T) (len count : Nat)
    (hlen : buf.length = len * count) (hl : 0 < len) :
    iterSlicesList len buf
      = some ((List.range count).map fun k => (buf.drop (k * len)).take len) ∧
    coverageSpec ((List.range count).map fun k => (buf.drop (k * len)).take len)
      count len buf := by
  refine ⟨?_, ?_, ?_, ?_⟩
  · rw [iterSlicesList]
    exact iterSlicesGo_eq len hl count buf.length buf (le_refl _) hlen
  · simp
  · exact chunkLen len count buf hlen
  · rw [chunksFlatten len count buf hlen]

/-- Claim C1: get is claimed to read buffer offset col*rows + row under the
    column-major layout for every backend. The Stacktrix backend instead
    computes the column start as col*C with a C-long slice (stacktrix.rs lines
    198-199): on the repository's own 4x3 test fixture, get(0, 1) returns the
    element at offset 1*3+0 = 3 (value 1) where the claimed offset is
    1*4+0 = 4 (value 2, the value the repository test col_first_uneven
    expects). -/
theorem c1_stacktrix_colmajor_get_wrong_offset :
    Stacktrix.cpGet st43 0 1 = some 1 ∧
    st43.inner[1 * st43.R + 0]? = some 2 := by
  decide

/-- Claim C2: for a row-major heap matrix, get_column(col) is claimed to
    return a strided view of length rows with stride cols. The immutable
    get_column (matrix.rs lines 225-237) instead builds the view with
    slices := self.rows and len := self.cols: on a 2x3 matrix whose buffer
    lists its own offsets, column 0 reads as [0, 2, 4] (length 3, stride 2)
    while the claim demands length 2 with element 1 at offset 1*3+0 = 3. -/
theorem c2_rowmajor_get_column_swapped_fields :
    (Matrix.rpGetColumn m23 0).bind (fun s => s.readAll m23.inner) = some [0, 2, 4] ∧
    Matrix.rpGetColumn m23 0 = some ⟨0, 2, 3⟩ ∧
    ([0, 2, 4] : List Nat).length ≠ m23.rows ∧
    m23.inner[1 * m23.cols + 0]? = some 3 := by
  decide

/-- Claim C3: fill_col on a column-major matrix is claimed to succeed for
    col < cols with data of length rows, overwriting exactly column col. The
    Reftrix backend (reftrix.rs lines 107-111) asserts data.len = R but then
    copies into the slice inner[col*C .. col*C+C], which panics whenever
    R is not C: on a 2x3 matrix, fill_col(0, [9, 9]) fails although col 0 is
    in bounds and the data has exactly the column length. -/
theorem c3_reftrix_fill_col_uses_cols :
    Reftrix.cpFillCol rf23 0 [9, 9] = none ∧
    ([9, 9] : List Nat).length = rf23.R ∧ 0 < rf23.C := by
  decide

/-- Claim C4: insert at any in-bounds (row, col) is claimed to succeed on
    every backend, after which get returns the value. Stacktrix's column-major
    insert writes through a C-long column slice, so the row index is checked
    against C rather than R (stacktrix.rs lines 97-99 with 207-215): on a 3x2
    matrix the in-bounds position (2, 0) panics. -/
theorem c4_stacktrix_insert_in_bounds_fails :
    Stacktrix.cpInsert st32 2 0 9 = none ∧ 2 < st32.R ∧ 0 < st32.C := by
  decide

/-- Claim C5: fill_col followed by get_column on the same index is claimed to
    return the supplied data on every backend. On a row-major 2x3 heap matrix,
    fill_col(0, [7, 8]) correctly writes offsets 0 and 3 through
    get_mut_column, but the immutable get_column (matrix.rs lines 225-237,
    with rows and cols swapped in the view) then reads back [7, 2, 4] instead
    of [7, 8]. -/
theorem c5_rowmajor_fill_col_get_column_mismatch :
    ((Matrix.rpFillCol m23 0 [7, 8]).bind fun m2 =>
      (Matrix.rpGetColumn m2 0).bind fun s => s.readAll m2.inner) = some [7, 2, 4] ∧
    ([7, 8] : List Nat).length = m23.rows ∧ 0 < m23.cols ∧
    ([7, 2, 4] : List Nat) ≠ [7, 8] := by
  decide

/-- Claim C6: on the 4x4 fixture [1,1,1,1,2,2,2,2,3,3,3,3,4,4,4,4] all three
    backends agree on every get(r, c) under each layout, and the reads are the
    stated ones: row-major row 0 = [1,1,1,1] and column 0 = [1,2,3,4];
    column-major column 0 = [1,1,1,1] and row 0 = [1,2,3,4]. -/
theorem c6_cross_backend_fixture :
    getTable (Matrix.cpGet mFx) = getTable (Reftrix.cpGet rFx) ∧
    getTable (Matrix.cpGet mFx) = getTable (Stacktrix.cpGet sFx) ∧
    getTable (Matrix.rpGet mFx) = getTable (Reftrix.rpGet rFx) ∧
    getTable (Matrix.rpGet mFx) = getTable (Stacktrix.rpGet sFx) ∧
    ((List.range 4).map fun c => Matrix.rpGet mFx 0 c) = [some 1, some 1, some 1, some 1] ∧
    ((List.range 4).map fun r => Matrix.rpGet mFx r 0) = [some 1, some 2, some 3, some 4] ∧
    ((List.range 4).map fun r => Matrix.cpGet mFx r 0) = [some 1, some 1, some 1, some 1] ∧
    ((List.range 4).map fun c => Matrix.cpGet mFx 0 c) = [some 1, some 2, some 3, some 4] := by
  decide

/-- Claim C7: on the 4x4 column-major fixture, the buffer footprints of the
    views yielded by rows_mut (and of the chunks yielded by cols_mut) are
    pairwise disjoint, adding each element's index within its row via rows_mut
    produces [1,1,1,1,3,3,3,3,5,5,5,5,7,7,7,7], and adding each element's
    index within its column via cols_mut produces
    [1,2,3,4,2,3,4,5,3,4,5,6,4,5,6,7]. -/
theorem c7_mut_line_iteration_disjoint_and_add_index :
    List.Pairwise (fun a b => (a ∩ b : List Nat) = []) mFx.cpRowFootprints ∧
    List.Pairwise (fun a b => (a ∩ b : List Nat) = []) mFx.cpColFootprints ∧
    Matrix.cpRowsMutAddIdx mFx = some [1, 1, 1, 1, 3, 3, 3, 3, 5, 5, 5, 5, 7, 7, 7, 7] ∧
    Matrix.cpColsMutAddIdx mFx =
      some [1, 2, 3, 4, 2, 3, 4, 5, 3, 4, 5, 6, 4, 5, 6, 7] := by
  decide

/-- Claim C8 counterexample: a valid heap matrix with one row and zero
    columns (empty buffer, 1*0 = 0) makes consuming rows() panic at the first
    step (lib.rs line 482 indexes the empty buffer), so rows() does not yield
    exactly one line view as the claim states for every matrix. -/
theorem c8_counterexample_zero_cols :
    Matrix.cpRows mEmptyAxis = none ∧
    mEmptyAxis.inner.length = mEmptyAxis.rows * mEmptyAxis.cols := by
  decide

/-- Claim C8 (amended): for every heap matrix with at least one row and at
    least one column, rows() yields exactly rows line views in ascending
    0-based index order and cols() exactly cols, each of the correct axis
    length, and concatenating the yielded lines in order visits every matrix
    element exactly once (no duplicates, no omissions), under both layouts. -/
theorem c8_rows_cols_cover (m : Matrix T)
    (hlen : m.inner.length = m.rows * m.cols) (hr : 0 < m.rows) (hc : 0 < m.cols) :
    m.rowsColsCoverCp ∧ m.rowsColsCoverRp := by
  have hpos : 0 < m.inner.length := by
    rw [hlen]
    exact Nat.mul_pos hr hc
  obtain ⟨d, _⟩ : ∃ d, d ∈ m.inner := List.exists_mem_of_length_pos hpos
  obtain ⟨hv1, hv2, hv3⟩ := intermCover m.inner d m.rows m.cols hlen hc
  obtain ⟨hw1, hw2⟩ := chunksCover m.inner m.rows m.cols hlen hr
  have hlen2 : m.inner.length = m.cols * m.rows := by rw [hlen, Nat.mul_comm]
  obtain ⟨hx1, hx2, hx3⟩ := intermCover m.inner d m.cols m.rows hlen2 hr
  obtain ⟨hy1, hy2⟩ := chunksCover m.inner m.cols m.rows hlen2 hc
  have hreadCp : m.cpRowsRead = some ((List.range m.rows).map fun k =>
      (List.range m.cols).map fun i => m.inner.getD (k + i * m.rows) d) := by
    rw [Matrix.cpRowsRead, Matrix.cpRows, hv1]
    simpa using hv2
  have hreadRp : m.rpColsRead = some ((List.range m.cols).map fun k =>
      (List.range m.rows).map fun i => m.inner.getD (k + i * m.cols) d) := by
    rw [Matrix.rpColsRead, Matrix.rpCols, hx1]
    simpa using hx2
  constructor
  · exact ⟨hv1, ⟨_, hreadCp, hv3⟩, hw1, ⟨_, hw1, hw2⟩⟩
  · exact ⟨hy1, ⟨_, hy1, hy2⟩, hx1, ⟨_, hreadRp, hx3⟩⟩

/-- Witness for c8_rows_cols_cover: its hypotheses hold at the concrete 2x3
    heap matrix m23 and the conclusion follows by the theorem. -/
theorem c8_rows_cols_cover_witness :
    m23.inner.length = m23.rows * m23.cols ∧ 0 < m23.rows ∧ 0 < m23.cols ∧
    (m23.rowsColsCoverCp ∧ m23.rowsColsCoverRp) :=
  ⟨by decide, by decide, by decide,
    c8_rows_cols_cover m23 (by decide) (by decide) (by decide)⟩

/-- Claim C9: every failing invocation is claimed to produce the documented
    error on every backend; in particular get with row >= rows must error.
    Stacktrix's column-major get checks the row index against the slice length
    C instead of R (stacktrix.rs lines 114-116 with 191-200): on a 2x3 matrix,
    get(2, 0) returns the element at offset 2 normally although row 2 is out
    of bounds. -/
theorem c9_stacktrix_get_out_of_bounds_row_no_error :
    Stacktrix.cpGet st23 2 0 = some 3 ∧ ¬ 2 < st23.R := by
  decide

/-- Claim C10: Display for MatrixError formats the error with the Display
    placeholder applied to self, recursively invoking the same fmt with no
    base case, so formatting never terminates normally: no amount of fuel
    makes the modelled fmt return a rendered string. -/
theorem c10_display_never_terminates :
    ∀ (fuel : Nat) (e : MatrixError), MatrixError.displayFmt fuel e = none := by
  intro fuel
  induction fuel with
  | zero => intro e; rfl
  | succ n ih => intro e; simpa [MatrixError.displayFmt] using ih e

end Mightrix
